import Mathlib

/-! Verification of the architecture-diagram renderer
(`app/ascii_diagrammer.py` of Techatech/multi-cloud-infrastruct).

The Python module is embedded shallowly:

* the regular expressions used by `parse_components` are all of one simple
  shape — a disjunction of literal phrases, each optionally anchored with
  `\b` on both sides, plus two extras (`s?` an optional trailing letter,
  `\s?` an optional whitespace character).  They are modelled by `Alt` and
  `consume` and `searchFrom` below, which mirror `re.search` semantics for
  exactly that fragment (word characters per the ASCII word class);
* Python str.lower and str.upper are modelled character-wise (ASCII case
  mapping), str.ljust and str.center with the CPython padding arithmetic,
  len as the number of code points (Lean `String.length`);
* the string literals of the source file are reproduced code point for code
  point.  Note the source file literally stores multi-code-point sequences
  for its box-drawing characters and icons (for example the horizontal bar
  is the three code points U+201A U+00EE U+00C4), and Python len counts
  those code points; the embedding keeps the exact sequences via
  `strOfCodes`. -/

namespace AsciiDiagrammer

/-- ASCII word character (regex word class, as relevant to this catalog). -/
def isWordChar (c : Char) : Bool := c.isAlphanum || c = '_'

/-- ASCII whitespace (regex `\s`, as relevant to this catalog). -/
def isSpaceChar (c : Char) : Bool := c = ' ' || c = '\t' || c = '\n' || c = '\r'

/-- One token of a literal phrase: a literal character, an optional literal
character (`x?`), or an optional whitespace character (`\s?`). -/
inductive Tok where
  | lit (c : Char)
  | opt (c : Char)
  | optWs
deriving DecidableEq

/-- All ways to consume the token list from the front of `cs`; each result is
the last character consumed (if any) together with the remaining suffix. -/
def consume : List Tok → Option Char → List Char → List (Option Char × List Char)
  | [], lastc, cs => [(lastc, cs)]
  | Tok.lit _ :: _, _, [] => []
  | Tok.lit c :: ts, _, d :: cs => if d = c then consume ts (some d) cs else []
  | Tok.opt c :: ts, lastc, cs =>
    (match cs with
     | d :: cs' => if d = c then consume ts (some d) cs' else []
     | [] => []) ++ consume ts lastc cs
  | Tok.optWs :: ts, lastc, cs =>
    (match cs with
     | d :: cs' => if isSpaceChar d then consume ts (some d) cs' else []
     | [] => []) ++ consume ts lastc cs

/-- Is the (optional) character a word character?  `none` stands for the
outside of the string. -/
def wordAt : Option Char → Bool
  | none => false
  | some c => isWordChar c

/-- Regex `\b`: the word-character status changes between the two sides. -/
def boundaryOk (prev next : Option Char) : Bool := wordAt prev != wordAt next

/-- One alternative of a pattern: a phrase with optional `\b` anchors. -/
structure Alt where
  bStart : Bool
  bEnd : Bool
  toks : List Tok
deriving DecidableEq

/-- Does the alternative match starting exactly at the position whose
preceding character is `prev` and whose suffix is `cs`? -/
def altMatchesAt (a : Alt) (prev : Option Char) (cs : List Char) : Bool :=
  (!a.bStart || boundaryOk prev cs.head?) &&
    (consume a.toks prev cs).any (fun p => !a.bEnd || boundaryOk p.1 p.2.head?)

/-- Does the alternative match at some position of the suffix (`re.search`)? -/
def searchFrom (a : Alt) : Option Char → List Char → Bool
  | prev, [] => altMatchesAt a prev []
  | prev, c :: cs => altMatchesAt a prev (c :: cs) || searchFrom a (some c) cs

/-- `re.search` of a disjunction of alternatives, as a Boolean. -/
def patSearch (p : List Alt) (s : List Char) : Bool :=
  p.any (fun a => searchFrom a none s)

/-- Literal phrase as tokens. -/
def lits (s : String) : List Tok := s.data.map Tok.lit

/-- Anchored phrase, regex `\bphrase\b`. -/
def bAlt (s : String) : Alt := ⟨true, true, lits s⟩

/-- Anchored phrase with optional trailing letter s, regex `\bphrases?\b`. -/
def bAltS (s : String) : Alt := ⟨true, true, lits s ++ [Tok.opt 's']⟩

/-- Anchored pair with optional whitespace in the middle, regex `\bleft\s?right\b`. -/
def bAlt2 (l r : String) : Alt := ⟨true, true, lits l ++ [Tok.optWs] ++ lits r⟩

/-- Unanchored literal phrase (generic fallback patterns have no `\b`). -/
def nAlt (s : String) : Alt := ⟨false, false, lits s⟩

/-- Unanchored phrase with optional trailing `s`. -/
def nAltS (s : String) : Alt := ⟨false, false, lits s ++ [Tok.opt 's']⟩

/-- String from explicit code points (used to reproduce the literal
character sequences of the source file exactly). -/
def strOfCodes (l : List Nat) : String := String.mk (l.map Char.ofNat)

/-- One entry of a platform detection table: detection pattern and display name. -/
structure SvcEntry where
  pattern : List Alt
  name : String
deriving DecidableEq

/-- The aws table of `self.platform_services`. -/
def awsServices : List (String × SvcEntry) :=
  [("user", ⟨[bAltS "user", bAltS "client", bAltS "customer"], "Users"⟩),
   ("internet", ⟨[bAlt "internet", bAlt "web", bAlt "public"], "Internet"⟩),
   ("dns", ⟨[bAlt2 "route" "53", bAlt "dns", bAlt "domain"], "Route 53"⟩),
   ("cdn", ⟨[bAlt "cloudfront", bAlt "cdn", bAlt "content delivery"], "CloudFront"⟩),
   ("load_balancer", ⟨[bAlt2 "load" "balancer", bAlt "elb", bAlt "alb", bAlt "nlb"], "ELB/ALB"⟩),
   ("api_gateway", ⟨[bAlt2 "api" "gateway", bAlt "api"], "API Gateway"⟩),
   ("compute", ⟨[bAlt "ec2", bAlt "server", bAlt "instance", bAlt "compute"], "EC2 Instance"⟩),
   ("serverless", ⟨[bAlt "lambda", bAlt "function"], "Lambda"⟩),
   ("database_sql", ⟨[bAlt "rds", bAlt "database", bAlt "mysql", bAlt "postgres", bAlt "aurora"], "RDS"⟩),
   ("database_nosql", ⟨[bAlt "dynamodb", bAlt "nosql"], "DynamoDB"⟩),
   ("cache", ⟨[bAlt "elasticache", bAlt "cache", bAlt "redis", bAlt "memcached"], "ElastiCache"⟩),
   ("storage_object", ⟨[bAlt "s3", bAlt "bucket", bAlt "object storage"], "S3 Bucket"⟩),
   ("storage_block", ⟨[bAlt "ebs", bAlt "block storage"], "EBS Volume"⟩),
   ("queue", ⟨[bAlt "sqs", bAlt "queue"], "SQS"⟩),
   ("notification", ⟨[bAlt "sns", bAlt "notification", bAlt "topic"], "SNS"⟩),
   ("vpc", ⟨[bAlt "vpc", bAlt "network"], "VPC"⟩),
   ("security", ⟨[bAlt "security group", bAlt "waf", bAlt "shield"], "Security"⟩),
   ("iam", ⟨[bAlt "iam", bAlt "identity", bAlt "role", bAlt "user"], "IAM"⟩),
   ("monitoring", ⟨[bAlt "cloudwatch", bAlt "monitor", bAlt "log", bAlt "metric"], "CloudWatch"⟩),
   ("container_registry", ⟨[bAlt "ecr", bAlt "container registry"], "ECR"⟩),
   ("ci_cd", ⟨[bAlt "codebuild", bAlt "codepipeline", bAlt "codecommit", bAlt "codedeploy", bAlt "ci/cd"], "CI/CD"⟩),
   ("auth", ⟨[bAlt "cognito", bAlt "authentication", bAlt "auth"], "Cognito"⟩)]

/-- The gcp table of `self.platform_services`. -/
def gcpServices : List (String × SvcEntry) :=
  [("user", ⟨[bAltS "user", bAltS "client", bAltS "customer"], "Users"⟩),
   ("internet", ⟨[bAlt "internet", bAlt "web", bAlt "public"], "Internet"⟩),
   ("dns", ⟨[bAlt "cloud dns", bAlt "dns"], "Cloud DNS"⟩),
   ("cdn", ⟨[bAlt "cloud cdn", bAlt "cdn"], "Cloud CDN"⟩),
   ("load_balancer", ⟨[bAlt "cloud load balancing", bAlt "load balancer"], "Load Balancer"⟩),
   ("api_gateway", ⟨[bAlt "api gateway", bAlt "apigee"], "API Gateway"⟩),
   ("compute", ⟨[bAlt "compute engine", bAlt "vm", bAlt "instance", bAlt "gce"], "Compute Engine"⟩),
   ("serverless", ⟨[bAlt "cloud functions", bAlt "cloud run", bAlt "functions"], "Cloud Functions/Run"⟩),
   ("database_sql", ⟨[bAlt "cloud sql", bAlt "spanner", bAlt "database", bAlt "mysql", bAlt "postgres"], "Cloud SQL/Spanner"⟩),
   ("database_nosql", ⟨[bAlt "firestore", bAlt "datastore", bAlt "bigtable", bAlt "nosql"], "Firestore/Bigtable"⟩),
   ("cache", ⟨[bAlt "memorystore", bAlt "cache", bAlt "redis", bAlt "memcached"], "Memorystore"⟩),
   ("storage_object", ⟨[bAlt "cloud storage", bAlt "bucket", bAlt "gcs"], "Cloud Storage"⟩),
   ("storage_block", ⟨[bAlt "persistent disk", bAlt "disk"], "Persistent Disk"⟩),
   ("queue", ⟨[bAlt "pub/sub", bAlt "queue", bAlt "topic"], "Pub/Sub"⟩),
   ("notification", ⟨[bAlt "pub/sub", bAlt "notification"], "Pub/Sub"⟩),
   ("vpc", ⟨[bAlt "vpc network", bAlt "network"], "VPC Network"⟩),
   ("security", ⟨[bAlt "firewall rule", bAlt "cloud armor", bAlt "security"], "Firewall/Armor"⟩),
   ("iam", ⟨[bAlt "iam", bAlt "identity", bAlt "service account"], "IAM"⟩),
   ("monitoring", ⟨[bAlt "cloud monitoring", bAlt "cloud logging", bAlt "operations"], "Cloud Monitoring"⟩),
   ("container_registry", ⟨[bAlt "artifact registry", bAlt "container registry"], "Artifact Registry"⟩),
   ("ci_cd", ⟨[bAlt "cloud build", bAlt "cloud deploy", bAlt "cloud source repositories"], "Cloud Build"⟩),
   ("data_warehouse", ⟨[bAlt "bigquery", bAlt "data warehouse"], "BigQuery"⟩),
   ("analytics", ⟨[bAlt "dataflow", bAlt "dataproc", bAlt "analytics"], "Dataflow/Dataproc"⟩),
   ("auth", ⟨[bAlt "identity platform", bAlt "firebase auth", bAlt "authentication"], "Identity Platform"⟩)]

/-- The azure table of `self.platform_services`. -/
def azureServices : List (String × SvcEntry) :=
  [("user", ⟨[bAltS "user", bAltS "client", bAltS "customer"], "Users"⟩),
   ("internet", ⟨[bAlt "internet", bAlt "web", bAlt "public"], "Internet"⟩),
   ("dns", ⟨[bAlt "azure dns", bAlt "dns"], "Azure DNS"⟩),
   ("cdn", ⟨[bAlt "azure cdn", bAlt "cdn"], "Azure CDN"⟩),
   ("load_balancer", ⟨[bAlt "load balancer", bAlt "application gateway"], "Load Balancer"⟩),
   ("api_gateway", ⟨[bAlt "api management", bAlt "api"], "API Management"⟩),
   ("compute", ⟨[bAlt "virtual machine", bAlt "vm", bAlt "instance"], "Virtual Machine"⟩),
   ("serverless", ⟨[bAlt "azure functions", bAlt "functions", bAlt "container apps"], "Azure Functions"⟩),
   ("database_sql", ⟨[bAlt "azure sql database", bAlt "sql server", bAlt "database"], "Azure SQL DB"⟩),
   ("database_nosql", ⟨[bAlt "cosmos db", bAlt "nosql"], "Cosmos DB"⟩),
   ("cache", ⟨[bAlt "azure cache for redis", bAlt "cache", bAlt "redis"], "Redis Cache"⟩),
   ("storage_object", ⟨[bAlt "blob storage", bAlt "container", bAlt "object storage"], "Blob Storage"⟩),
   ("storage_block", ⟨[bAlt "managed disk", bAlt "disk"], "Managed Disk"⟩),
   ("queue", ⟨[bAlt "azure queue storage", bAlt "service bus", bAlt "queue"], "Queue/Service Bus"⟩),
   ("notification", ⟨[bAlt "event grid", bAlt "notification hub"], "Event Grid/Hub"⟩),
   ("vpc", ⟨[bAlt "virtual network", bAlt "vnet", bAlt "network"], "Virtual Network"⟩),
   ("security", ⟨[bAlt "network security group", bAlt "nsg", bAlt "azure firewall", bAlt "waf"], "NSG/Firewall"⟩),
   ("iam", ⟨[bAlt "azure active directory", bAlt "entra id", bAlt "rbac", bAlt "identity"], "Entra ID (AD)"⟩),
   ("monitoring", ⟨[bAlt "azure monitor", bAlt "log analytics", bAlt "monitor"], "Azure Monitor"⟩),
   ("container_registry", ⟨[bAlt "azure container registry", bAlt "acr"], "ACR"⟩),
   ("ci_cd", ⟨[bAlt "azure devops", bAlt "pipelines", bAlt "github actions"], "Azure DevOps"⟩),
   ("data_warehouse", ⟨[bAlt "synapse analytics", bAlt "data warehouse"], "Synapse Analytics"⟩),
   ("analytics", ⟨[bAlt "data factory", bAlt "databricks", bAlt "analytics"], "Data Factory"⟩),
   ("auth", ⟨[bAlt "azure active directory b2c", bAlt "entra external id", bAlt "auth"], "Entra External ID"⟩)]

/-- The generic fallback table built inside `parse_components` for an unknown
platform.  Its patterns carry no `\b` anchors in the source. -/
def genericServices : List (String × SvcEntry) :=
  [("user", ⟨[nAltS "user"], "User"⟩),
   ("load_balancer", ⟨[nAlt "load balancer"], "Load Balancer"⟩),
   ("compute", ⟨[nAlt "server", nAlt "compute", nAlt "instance"], "Compute"⟩),
   ("database_sql", ⟨[nAlt "database", nAlt "sql"], "Database"⟩),
   ("storage_object", ⟨[nAlt "storage", nAlt "bucket"], "Storage"⟩)]

/-- Dict `self.platform_services` of the known platforms. -/
def platform_services : List (String × List (String × SvcEntry)) :=
  [("aws", awsServices), ("gcp", gcpServices), ("azure", azureServices)]

/-- Map `self.service_icons`, with the literal (multi-code-point) strings
of the source file reproduced code point for code point. -/
def service_icons : List (String × String) :=
  [("user", strOfCodes [0xf8ff, 0xfc, 0xeb, 0x2022]),
   ("internet", strOfCodes [0xf8ff, 0xfc, 0xe5, 0xea]),
   ("dns", strOfCodes [0xf8ff, 0xfc, 0xe5, 0xe7]),
   ("cdn", strOfCodes [0xf8ff, 0xfc, 0xf6, 0xc4]),
   ("load_balancer", strOfCodes [0x201a, 0xf6, 0xf1, 0xd4, 0x220f, 0xe8]),
   ("api_gateway", strOfCodes [0xf8ff, 0xfc, 0xee, 0xe5]),
   ("compute", strOfCodes [0xf8ff, 0xfc, 0xf1, 0x2022, 0xd4, 0x220f, 0xe8]),
   ("serverless", strOfCodes [0x201a, 0xf6, 0xb0]),
   ("database_sql", strOfCodes [0xf8ff, 0xfc, 0xf3, 0xd1, 0xd4, 0x220f, 0xe8]),
   ("database_nosql", strOfCodes [0xf8ff, 0xfc, 0xec, 0xe4]),
   ("cache", strOfCodes [0xf8ff, 0xfc, 0xed, 0xae]),
   ("storage_object", strOfCodes [0xf8ff, 0xfc, 0xec, 0xb6]),
   ("storage_block", strOfCodes [0xf8ff, 0xfc, 0xed, 0xe6]),
   ("queue", strOfCodes [0xf8ff, 0xfc, 0xec, 0xa8]),
   ("notification", strOfCodes [0xf8ff, 0xfc, 0xec, 0xa2]),
   ("vpc", strOfCodes [0xf8ff, 0xfc, 0xe8, 0x2020]),
   ("security", strOfCodes [0xf8ff, 0xfc, 0xee, 0xed]),
   ("iam", strOfCodes [0xf8ff, 0xfc, 0xee, 0xea]),
   ("monitoring", strOfCodes [0xf8ff, 0xfc, 0xec, 0xe0]),
   ("container_registry", strOfCodes [0xf8ff, 0xfc, 0xf6, 0xa2]),
   ("ci_cd", strOfCodes [0x201a, 0xf6, 0xf4, 0xd4, 0x220f, 0xe8]),
   ("data_warehouse", strOfCodes [0xf8ff, 0xfc, 0xe8, 0xb6]),
   ("analytics", strOfCodes [0xf8ff, 0xfc, 0xed, 0xb0]),
   ("auth", strOfCodes [0xf8ff, 0xfc, 0xee, 0xeb])]

/-- The default icon substituted by service_icons.get for an unknown concept. -/
def defaultIcon : String := strOfCodes [0x201a, 0xf9, 0xec]

/-- Table `self.layer_priority`. -/
def layer_priority : List (String × Nat) :=
  [("user", 0), ("internet", 0),
   ("dns", 1), ("cdn", 1),
   ("load_balancer", 2), ("api_gateway", 2), ("auth", 2),
   ("compute", 3), ("serverless", 3),
   ("cache", 4), ("queue", 4), ("notification", 4),
   ("database_sql", 5), ("database_nosql", 5), ("data_warehouse", 5),
   ("storage_object", 6), ("storage_block", 6), ("analytics", 6),
   ("vpc", 7), ("security", 7), ("iam", 7), ("monitoring", 7),
   ("container_registry", 8), ("ci_cd", 8)]

/-- Python str.lower, character-wise (ASCII case mapping), as a character
list: the lowered plan text seen by the matcher. -/
def lowerChars (s : String) : List Char := s.data.map Char.toLower

/-- Python str.lower as a string (used for the platform lookup). -/
def lowerStr (s : String) : String := String.mk (lowerChars s)

/-- Python str.upper, character-wise (ASCII case mapping). -/
def upperStr (s : String) : String := String.mk (s.data.map Char.toUpper)

/-- Lookup self.platform_services.get of the lowered platform, with the
fallback to the generic table for an unknown platform (the three known
tables are non-empty literals, so the Python truthiness test on the lookup
result is exactly a None test). -/
def platformPatterns (platform : String) : List (String × SvcEntry) :=
  match platform_services.lookup (lowerStr platform) with
  | some t => t
  | none => genericServices

/-- One detected component (the dict appended by `parse_components`). -/
structure Component where
  concept : String
  name : String
  icon : String
  layer : Nat
deriving DecidableEq

/-- The component dict built for a matching table entry, with the default
substitutions of service_icons.get (default icon) and layer_priority.get
(default layer 99). -/
def mkComponent (e : String × SvcEntry) : Component :=
  { concept := e.1
    name := e.2.name
    icon := (service_icons.lookup e.1).getD defaultIcon
    layer := (layer_priority.lookup e.1).getD 99 }

/-- The scan loop of `parse_components`: for each table entry whose pattern
matches the lowered plan text, append a component unless the concept was
already added (`added_concepts`). -/
def parseAux (plan : List Char) :
    List (String × SvcEntry) → List String → List Component → List Component
  | [], _, acc => acc
  | e :: rest, seen, acc =>
    if patSearch e.2.pattern plan then
      if e.1 ∈ seen then parseAux plan rest seen acc
      else parseAux plan rest (e.1 :: seen) (acc ++ [mkComponent e])
    else parseAux plan rest seen acc

/-- Lexicographic comparison of character lists by code point (Python
string comparison), as an executable Boolean. -/
def charListLe : List Char → List Char → Bool
  | [], _ => true
  | _ :: _, [] => false
  | a :: as, b :: bs => if a < b then true else if b < a then false else charListLe as bs

/-- The Python sort key, the pair of layer and name, compared
lexicographically (string comparison is by code points), as a Boolean
total preorder. -/
def compLe (a b : Component) : Bool :=
  a.layer < b.layer || (a.layer == b.layer && charListLe a.name.data b.name.data)

/-- The sort relation as a proposition, for the sort routine. -/
def compLeP : Component → Component → Prop := fun a b => compLe a b = true

instance : DecidableRel compLeP := fun a b => instDecidableEqBool (compLe a b) true

/-- Method `ASCIIDiagramGenerator.parse_components`.  The final
`components.sort` is a stable sort by the key; `List.insertionSort` is a
stable sort, so it is extensionally the Python sort. -/
def parse_components (plan_text platform : String) : List Component :=
  List.insertionSort compLeP (parseAux (lowerChars plan_text) (platformPatterns platform) [] [])

/-! ### Layout (`build_diagram_text`) -/

/-- The horizontal bar literal of self.chars (like every box-drawing
literal of the source file it is a three-code-point sequence, and Python
len counts those code points). -/
def hChar : String := strOfCodes [0x201a, 0xee, 0xc4]

/-- The vertical bar literal of self.chars (and the identical inline literals). -/
def vChar : String := strOfCodes [0x201a, 0xee, 0xc7]

/-- The downward arrow literal of self.chars. -/
def arrowDown : String := strOfCodes [0x201a, 0xdc, 0xec]

/-- The inline top-left corner literal. -/
def cornerTL : String := strOfCodes [0x201a, 0xee, 0xe5]

/-- The inline top-right corner literal. -/
def cornerTR : String := strOfCodes [0x201a, 0xee, 0xea]

/-- The inline separator-left literal. -/
def sepL : String := strOfCodes [0x201a, 0xee, 0xfa]

/-- The inline separator-right literal. -/
def sepR : String := strOfCodes [0x201a, 0xee, 0xa7]

/-- The inline bottom-left corner literal. -/
def cornerBL : String := strOfCodes [0x201a, 0xee, 0xee]

/-- The inline bottom-right corner literal. -/
def cornerBR : String := strOfCodes [0x201a, 0xee, 0xf2]

/-- Python string repetition `s * n`. -/
def strRepeat (s : String) (n : Nat) : String :=
  String.join (List.replicate n s)

/-- Fill of n spaces. -/
def spaces (n : Nat) : String := String.mk (List.replicate n ' ')

/-- Python str.ljust. -/
def pyLjust (s : String) (w : Nat) : String :=
  if w ≤ s.length then s else s ++ spaces (w - s.length)

/-- Python str.center (CPython computes the left margin as
`marg / 2 + (marg &&& width &&& 1)`). -/
def pyCenter (s : String) (w : Nat) : String :=
  if w ≤ s.length then s
  else
    let marg := w - s.length
    let left := marg / 2 + (marg &&& w &&& 1)
    spaces left ++ s ++ spaces (marg - left)

/-- Python slice from index 1 to the last index excluded. -/
def dropEnds (s : String) : String := String.mk ((s.data.drop 1).dropLast)

/-- The label rendered for a component: icon, space, name. -/
def labelOf (c : Component) : String := c.icon ++ " " ++ c.name

/-- One step of grouping into the insertion-ordered `layers` dict. -/
def insertLayer (acc : List (Nat × List Component)) (c : Component) :
    List (Nat × List Component) :=
  if acc.any (fun p => p.1 == c.layer) then
    acc.map (fun p => if p.1 == c.layer then (p.1, p.2 ++ [c]) else p)
  else acc ++ [(c.layer, [c])]

/-- The `layers` dict of `build_diagram_text` (Python dicts preserve
insertion order), as an association list. -/
def groupLayers (comps : List Component) : List (Nat × List Component) :=
  comps.foldl insertLayer []

/-- The `max_label_width` loop: per layer, the sum of `len(label) + 4`
over that layer's components; then the running maximum. -/
def max_label_width (comps : List Component) : Nat :=
  (groupLayers comps).foldl
    (fun m p => max m (p.2.foldl (fun s c => s + ((labelOf c).length + 4)) 0)) 0

/-- Computes `box_width = max(len(title) + 4, max_label_width, 40)`. -/
def box_width (comps : List Component) (title : String) : Nat :=
  max (max (title.length + 4) (max_label_width comps)) 40

/-- One component row: vertical bar, space, the label left-justified to
box_width - 2, space, vertical bar. -/
def componentRow (bw : Nat) (c : Component) : String :=
  vChar ++ " " ++ pyLjust (labelOf c) (bw - 2) ++ " " ++ vChar

/-- The connector row appended between consecutive layers: the arrow
centered to box_width, then the slice dropping its first and last code
point, between two vertical bar literals. -/
def connectorRow (bw : Nat) : String :=
  vChar ++ dropEnds (pyCenter arrowDown bw) ++ vChar

/-- The `for i, layer_num in enumerate(sorted_layers)` loop: rows for each
layer, with a connector after every layer but the last. -/
def layerLoop (layersAssoc : List (Nat × List Component)) (bw : Nat) :
    List Nat → List String
  | [] => []
  | [l] => ((layersAssoc.lookup l).getD []).map (componentRow bw)
  | l :: l' :: rest =>
    ((layersAssoc.lookup l).getD []).map (componentRow bw) ++
      [connectorRow bw] ++ layerLoop layersAssoc bw (l' :: rest)

/-- The `diagram_lines` list built by `build_diagram_text` for a non-empty
component list. -/
def diagramLines (components : List Component) (title : String) : List String :=
  let layers := groupLayers components
  let bw := box_width components title
  let sortedLayers := List.insertionSort (fun a b => a ≤ b) (layers.map Prod.fst)
  [cornerTL ++ strRepeat hChar bw ++ cornerTR,
   vChar ++ " " ++ pyCenter title (bw - 2) ++ " " ++ vChar,
   sepL ++ strRepeat hChar bw ++ sepR] ++
    layerLoop layers bw sortedLayers ++
    [cornerBL ++ strRepeat hChar bw ++ cornerBR]

/-- Method `ASCIIDiagramGenerator.build_diagram_text`. -/
def build_diagram_text (components : List Component) (title : String) : String :=
  if components = [] then
    "```text\nNo specific components detected for " ++ title ++ ".\n```"
  else
    "```text\n" ++ String.intercalate "\n" (diagramLines components title) ++ "\n```"

/-- Method `ASCIIDiagramGenerator.create_architecture_diagram`; the
parameter titlePre embeds the title parameter of the source, whose default
is Architecture. -/
def create_architecture_diagram (plan_text platform titlePre : String) : String :=
  if platform = "" then "```text\nError: Target platform not specified.\n```"
  else
    build_diagram_text (parse_components plan_text platform)
      (titlePre ++ " on " ++ upperStr platform)

/-- The module-level helper `generate_ascii_diagram`. -/
def generate_ascii_diagram (plan_text target_platform : String) : String :=
  if plan_text = "" then
    "```text\nNo architecture plan provided to generate diagram.\n```"
  else if target_platform = "" then
    "```text\nTarget platform (aws, gcp, azure) must be specified.\n```"
  else create_architecture_diagram plan_text target_platform "Architecture"

/-! ### Specification-side definitions, for comparison with the code -/

/-- Interior width as the spec claim words it: the maximum of the title
length plus fixed padding, the width of the single widest label across all
components plus fixed padding, and the floor 40.  Stated from the claim,
to be compared with `box_width` from the source. -/
def claimedBoxWidth (comps : List Component) (title : String) : Nat :=
  max (max (title.length + 4)
        ((comps.map (fun c => (labelOf c).length + 4)).foldr max 0)) 40

/-- The distinct layer values of a component list, in order of first
appearance. -/
def distinctLayers (comps : List Component) : List Nat :=
  comps.foldl (fun ls c => if c.layer ∈ ls then ls else ls ++ [c.layer]) []

/-- Total rendered row width demanded by one layer: the sum, over the
components of that layer, of the label width plus the fixed padding 4. -/
def layerRowSum (comps : List Component) (l : Nat) : Nat :=
  ((comps.filter (fun c => c.layer == l)).map (fun c => (labelOf c).length + 4)).sum

/-- The character preceding the current position after walking over `pre`
(`prev` if `pre` is empty, its last character otherwise). -/
def prevOf (prev : Option Char) : List Char → Option Char
  | [] => prev
  | c :: cs => prevOf (some c) cs

/-! ### Extraction infrastructure lemmas -/

theorem parseAux_eq_filter (plan : List Char) :
    ∀ (tbl : List (String × SvcEntry)) (seen : List String) (acc : List Component),
      (tbl.map Prod.fst).Nodup → (∀ k ∈ tbl.map Prod.fst, k ∉ seen) →
      parseAux plan tbl seen acc =
        acc ++ (tbl.filter (fun e => patSearch e.2.pattern plan)).map mkComponent
  | [], _, acc, _, _ => by simp [parseAux]
  | e :: rest, seen, acc, hnd, hds => by
    simp only [List.map_cons, List.nodup_cons] at hnd
    have he : e.1 ∉ seen := hds e.1 (by simp)
    by_cases hm : patSearch e.2.pattern plan
    · have hds' : ∀ k ∈ rest.map Prod.fst, k ∉ e.1 :: seen := by
        intro k hk
        simp only [List.mem_cons, not_or]
        exact ⟨fun hke => hnd.1 (hke ▸ hk), hds k (List.mem_cons_of_mem _ hk)⟩
      simp only [parseAux, if_pos hm, if_neg he]
      rw [parseAux_eq_filter plan rest (e.1 :: seen) (acc ++ [mkComponent e]) hnd.2 hds']
      simp [List.filter_cons, hm]
    · have hds' : ∀ k ∈ rest.map Prod.fst, k ∉ seen := fun k hk =>
        hds k (List.mem_cons_of_mem _ hk)
      simp only [parseAux, if_neg hm]
      rw [parseAux_eq_filter plan rest seen acc hnd.2 hds']
      simp [List.filter_cons, hm]

theorem aws_keys_nodup : (awsServices.map Prod.fst).Nodup := by decide

theorem gcp_keys_nodup : (gcpServices.map Prod.fst).Nodup := by decide

theorem azure_keys_nodup : (azureServices.map Prod.fst).Nodup := by decide

theorem generic_keys_nodup : (genericServices.map Prod.fst).Nodup := by decide

theorem platformPatterns_cases (platform : String) :
    platformPatterns platform = awsServices ∨ platformPatterns platform = gcpServices ∨
      platformPatterns platform = azureServices ∨ platformPatterns platform = genericServices := by
  by_cases h1 : lowerStr platform = "aws"
  · exact Or.inl (by simp [platformPatterns, platform_services, List.lookup, h1])
  · by_cases h2 : lowerStr platform = "gcp"
    · exact Or.inr (Or.inl (by simp [platformPatterns, platform_services, List.lookup, h1, h2]))
    · by_cases h3 : lowerStr platform = "azure"
      · exact Or.inr (Or.inr (Or.inl
          (by simp [platformPatterns, platform_services, List.lookup, h1, h2, h3])))
      · have b1 : (lowerStr platform == "aws") = false := beq_eq_false_iff_ne.mpr h1
        have b2 : (lowerStr platform == "gcp") = false := beq_eq_false_iff_ne.mpr h2
        have b3 : (lowerStr platform == "azure") = false := beq_eq_false_iff_ne.mpr h3
        exact Or.inr (Or.inr (Or.inr
          (by simp [platformPatterns, platform_services, List.lookup, b1, b2, b3])))

theorem platform_keys_nodup (platform : String) :
    ((platformPatterns platform).map Prod.fst).Nodup := by
  rcases platformPatterns_cases platform with h | h | h | h <;> rw [h]
  · exact aws_keys_nodup
  · exact gcp_keys_nodup
  · exact azure_keys_nodup
  · exact generic_keys_nodup

theorem parse_components_eq (plan_text platform : String) :
    parse_components plan_text platform =
      List.insertionSort compLeP
        (((platformPatterns platform).filter
          (fun e => patSearch e.2.pattern (lowerChars plan_text))).map mkComponent) := by
  unfold parse_components
  rw [parseAux_eq_filter (lowerChars plan_text) (platformPatterns platform) [] []
    (platform_keys_nodup platform) (by simp)]
  simp

theorem mkComponent_concept (e : String × SvcEntry) : (mkComponent e).concept = e.1 := rfl

theorem concepts_perm (plan_text platform : String) :
    ((parse_components plan_text platform).map Component.concept).Perm
      (((platformPatterns platform).filter
          (fun e => patSearch e.2.pattern (lowerChars plan_text))).map Prod.fst) := by
  rw [parse_components_eq]
  have h := (List.perm_insertionSort compLeP
    (((platformPatterns platform).filter
        (fun e => patSearch e.2.pattern (lowerChars plan_text))).map mkComponent)).map
    Component.concept
  rw [List.map_map] at h
  exact h

theorem parse_concepts_nodup (plan_text platform : String) :
    ((parse_components plan_text platform).map Component.concept).Nodup := by
  refine (concepts_perm plan_text platform).nodup_iff.mpr ?_
  exact ((List.filter_sublist _).map Prod.fst).nodup (platform_keys_nodup platform)

theorem mem_parse_components {plan_text platform : String} {k : String} :
    k ∈ (parse_components plan_text platform).map Component.concept ↔
      ∃ e ∈ platformPatterns platform, e.1 = k ∧
        patSearch e.2.pattern (lowerChars plan_text) = true := by
  rw [(concepts_perm plan_text platform).mem_iff]
  simp only [List.mem_map, List.mem_filter]
  constructor
  · rintro ⟨e, ⟨he, hm⟩, hk⟩
    exact ⟨e, he, hk, hm⟩
  · rintro ⟨e, he, hk, hm⟩
    exact ⟨e, ⟨he, hm⟩, hk⟩

theorem comp_mem_parse {plan_text platform : String} {e : String × SvcEntry}
    (he : e ∈ platformPatterns platform)
    (hm : patSearch e.2.pattern (lowerChars plan_text) = true) :
    mkComponent e ∈ parse_components plan_text platform := by
  rw [parse_components_eq, List.mem_insertionSort]
  exact List.mem_map_of_mem _ (List.mem_filter.mpr ⟨he, hm⟩)

theorem charListLe_iff : ∀ as bs : List Char, charListLe as bs = true ↔ ¬bs < as
  | [], bs => by
    simp only [charListLe, true_iff]
    intro h
    cases h
  | a :: as, [] => by
    simp only [charListLe]
    constructor
    · intro h
      exact absurd h (by simp)
    · intro h
      exact absurd List.Lex.nil h
  | a :: as, b :: bs => by
    simp only [charListLe]
    by_cases hab : a < b
    · rw [if_pos hab]
      constructor
      · intro _ h
        cases h with
        | cons h' => exact absurd hab (lt_irrefl _)
        | rel h' => exact absurd hab (asymm h')
      · intro _
        rfl
    · rw [if_neg hab]
      by_cases hba : b < a
      · rw [if_pos hba]
        constructor
        · intro h
          exact absurd h (by simp)
        · intro h
          exact absurd (List.Lex.rel hba) h
      · rw [if_neg hba]
        have heq : a = b := le_antisymm (not_lt.mp hba) (not_lt.mp hab)
        subst heq
        rw [charListLe_iff as bs]
        constructor
        · intro h hlt
          cases hlt with
          | cons h' => exact h h'
          | rel h' => exact absurd h' (lt_irrefl _)
        · intro h hlt
          exact h (List.Lex.cons hlt)

theorem nameLe_iff (a b : String) : charListLe a.data b.data = true ↔ a ≤ b :=
  (charListLe_iff a.data b.data).trans (not_lt.trans String.le_iff_toList_le.symm)

theorem compLe_trans : ∀ a b c : Component, compLe a b → compLe b c → compLe a c := by
  intro a b c hab hbc
  simp only [compLe, Bool.or_eq_true, Bool.and_eq_true, decide_eq_true_eq,
    beq_iff_eq, nameLe_iff] at hab hbc ⊢
  rcases hab with h | ⟨h, hn⟩ <;> rcases hbc with h' | ⟨h', hn'⟩
  · exact Or.inl (h.trans h')
  · exact Or.inl (h' ▸ h)
  · exact Or.inl (h ▸ h')
  · exact Or.inr ⟨h.trans h', le_trans hn hn'⟩

theorem compLe_total : ∀ a b : Component, compLe a b || compLe b a := by
  intro a b
  simp only [compLe, Bool.or_eq_true, Bool.and_eq_true, decide_eq_true_eq, beq_iff_eq,
    nameLe_iff]
  rcases Nat.lt_trichotomy a.layer b.layer with h | h | h
  · exact Or.inl (Or.inl h)
  · rcases le_total a.name b.name with hn | hn
    · exact Or.inl (Or.inr ⟨h, hn⟩)
    · exact Or.inr (Or.inr ⟨h.symm, hn⟩)
  · exact Or.inr (Or.inl h)

instance : IsTrans Component compLeP := ⟨compLe_trans⟩

instance : IsTotal Component compLeP := by
  constructor
  intro a b
  have h := compLe_total a b
  rcases Bool.or_eq_true _ _ |>.mp h with h | h
  · exact Or.inl h
  · exact Or.inr h

theorem parse_components_pairwise (plan_text platform : String) :
    (parse_components plan_text platform).Pairwise
      (fun a b => a.layer < b.layer ∨ (a.layer = b.layer ∧ a.name ≤ b.name)) := by
  rw [parse_components_eq]
  refine (List.sorted_insertionSort compLeP _).imp ?_
  intro a b hab
  simpa [compLeP, compLe, Bool.or_eq_true, Bool.and_eq_true, decide_eq_true_eq, beq_iff_eq,
    nameLe_iff] using hab

/-! ### Matcher lemmas -/

theorem data_append (s t : String) : (s ++ t).data = s.data ++ t.data := by
  cases s; cases t; rfl

theorem lowerChars_append (s t : String) :
    lowerChars (s ++ t) = lowerChars s ++ lowerChars t := by
  simp [lowerChars, data_append]

theorem consume_extend (u : List Char) :
    ∀ (ts : List Tok) (lastc : Option Char) (cs : List Char) (p : Option Char × List Char),
      p ∈ consume ts lastc cs → (p.1, p.2 ++ u) ∈ consume ts lastc (cs ++ u)
  | [], lastc, cs, p, hp => by
    simp only [consume, List.mem_singleton] at hp
    subst hp
    simp [consume]
  | Tok.lit c :: ts, lastc, cs, p, hp => by
    cases cs with
    | nil => simp [consume] at hp
    | cons d cs' =>
      simp only [consume, List.cons_append] at hp ⊢
      by_cases hd : d = c
      · rw [if_pos hd] at hp ⊢
        exact consume_extend u ts (some d) cs' p hp
      · rw [if_neg hd] at hp
        simp at hp
  | Tok.opt c :: ts, lastc, cs, p, hp => by
    simp only [consume, List.mem_append] at hp
    rcases hp with hp | hp
    · cases cs with
      | nil => simp at hp
      | cons d cs' =>
        have hp' : p ∈ (if d = c then consume ts (some d) cs' else []) := hp
        by_cases hd : d = c
        · rw [if_pos hd] at hp'
          have hrec := consume_extend u ts (some d) cs' p hp'
          simp only [consume, List.cons_append, List.mem_append]
          exact Or.inl (show (p.1, p.2 ++ u) ∈
            (if d = c then consume ts (some d) (cs' ++ u) else []) from by
              rw [if_pos hd]; exact hrec)
        · rw [if_neg hd] at hp'
          simp at hp'
    · have hrec := consume_extend u ts lastc cs p hp
      simp only [consume, List.mem_append]
      exact Or.inr hrec
  | Tok.optWs :: ts, lastc, cs, p, hp => by
    simp only [consume, List.mem_append] at hp
    rcases hp with hp | hp
    · cases cs with
      | nil => simp at hp
      | cons d cs' =>
        have hp' : p ∈ (if isSpaceChar d then consume ts (some d) cs' else []) := hp
        by_cases hd : isSpaceChar d
        · rw [if_pos hd] at hp'
          have hrec := consume_extend u ts (some d) cs' p hp'
          simp only [consume, List.cons_append, List.mem_append]
          exact Or.inl (show (p.1, p.2 ++ u) ∈
            (if isSpaceChar d then consume ts (some d) (cs' ++ u) else []) from by
              rw [if_pos hd]; exact hrec)
        · rw [if_neg hd] at hp'
          simp at hp'
    · have hrec := consume_extend u ts lastc cs p hp
      simp only [consume, List.mem_append]
      exact Or.inr hrec

theorem wordAt_none : wordAt none = false := rfl

theorem wordAt_some (c : Char) : wordAt (some c) = isWordChar c := rfl

theorem altMatchesAt_extend (a : Alt) (prev : Option Char) (cs : List Char) {c : Char}
    (u : List Char) (hc : isWordChar c = false)
    (h : altMatchesAt a prev cs = true) :
    altMatchesAt a prev (cs ++ c :: u) = true := by
  unfold altMatchesAt at h ⊢
  rw [Bool.and_eq_true] at h ⊢
  obtain ⟨h1, h2⟩ := h
  constructor
  · cases hb : a.bStart
    · simp [hb]
    · rw [hb] at h1
      simp only [Bool.not_true, Bool.false_or] at h1 ⊢
      cases cs with
      | nil =>
        have hw : wordAt prev = true := by
          by_contra hw
          rw [Bool.not_eq_true] at hw
          simp [boundaryOk, wordAt_none, hw] at h1
        simp [boundaryOk, wordAt_none, wordAt_some, hw, hc]
      | cons d cs' => simpa using h1
  · rw [List.any_eq_true] at h2 ⊢
    obtain ⟨p, hp, hcond⟩ := h2
    refine ⟨(p.1, p.2 ++ c :: u), consume_extend (c :: u) a.toks prev cs p hp, ?_⟩
    cases he : a.bEnd
    · simp [he]
    · rw [he] at hcond
      simp only [Bool.not_true, Bool.false_or] at hcond ⊢
      cases hp2 : p.2 with
      | nil =>
        rw [hp2] at hcond
        have hw : wordAt p.1 = true := by
          by_contra hw
          rw [Bool.not_eq_true] at hw
          simp [boundaryOk, wordAt_none, hw] at hcond
        simp [boundaryOk, wordAt_none, wordAt_some, hw, hc]
      | cons d cs' =>
        rw [hp2] at hcond
        simpa using hcond

theorem searchFrom_extend (a : Alt) {c : Char} (u : List Char) (hc : isWordChar c = false) :
    ∀ (cs : List Char) (prev : Option Char),
      searchFrom a prev cs = true → searchFrom a prev (cs ++ c :: u) = true
  | [], prev, h => by
    have hm := altMatchesAt_extend a prev [] u hc (by simpa [searchFrom] using h)
    simp only [List.nil_append] at hm ⊢
    simp [searchFrom, hm]
  | d :: cs, prev, h => by
    simp only [searchFrom, Bool.or_eq_true] at h
    simp only [List.cons_append, searchFrom, Bool.or_eq_true]
    rcases h with h | h
    · exact Or.inl (by
        have hm := altMatchesAt_extend a prev (d :: cs) u hc h
        simpa using hm)
    · exact Or.inr (searchFrom_extend a u hc cs (some d) h)

theorem patSearch_extend {p : List Alt} {s : List Char} {c : Char} (u : List Char)
    (hc : isWordChar c = false) (h : patSearch p s = true) :
    patSearch p (s ++ c :: u) = true := by
  rw [patSearch, List.any_eq_true] at h ⊢
  obtain ⟨a, ha, hs⟩ := h
  exact ⟨a, ha, searchFrom_extend a u hc s none hs⟩

theorem searchFrom_of_matchesAt (a : Alt) :
    ∀ (pre : List Char) (prev : Option Char) (suf : List Char),
      altMatchesAt a (prevOf prev pre) suf = true →
      searchFrom a prev (pre ++ suf) = true
  | [], prev, suf, h => by
    cases suf with
    | nil => simpa [searchFrom, prevOf] using h
    | cons c cs =>
      simp only [List.nil_append, searchFrom, Bool.or_eq_true]
      exact Or.inl (by simpa [prevOf] using h)
  | c :: pre, prev, suf, h => by
    simp only [List.cons_append, searchFrom, Bool.or_eq_true]
    exact Or.inr (searchFrom_of_matchesAt a pre (some c) suf (by simpa [prevOf] using h))

theorem consume_append_toks :
    ∀ (ts1 ts2 : List Tok) (lastc : Option Char) (cs : List Char)
      (p q : Option Char × List Char),
      p ∈ consume ts1 lastc cs → q ∈ consume ts2 p.1 p.2 →
      q ∈ consume (ts1 ++ ts2) lastc cs
  | [], ts2, lastc, cs, p, q, hp, hq => by
    simp only [consume, List.mem_singleton] at hp
    subst hp
    simpa using hq
  | Tok.lit c :: ts, ts2, lastc, cs, p, q, hp, hq => by
    cases cs with
    | nil => simp [consume] at hp
    | cons d cs' =>
      simp only [consume, List.cons_append] at hp ⊢
      by_cases hd : d = c
      · rw [if_pos hd] at hp ⊢
        exact consume_append_toks ts ts2 (some d) cs' p q hp hq
      · rw [if_neg hd] at hp
        simp at hp
  | Tok.opt c :: ts, ts2, lastc, cs, p, q, hp, hq => by
    simp only [consume, List.mem_append] at hp
    simp only [List.cons_append, consume, List.mem_append]
    rcases hp with hp | hp
    · cases cs with
      | nil => simp at hp
      | cons d cs' =>
        have hp' : p ∈ (if d = c then consume ts (some d) cs' else []) := hp
        by_cases hd : d = c
        · rw [if_pos hd] at hp'
          exact Or.inl (show q ∈ (if d = c then consume (ts ++ ts2) (some d) cs' else [])
            from by rw [if_pos hd]; exact consume_append_toks ts ts2 (some d) cs' p q hp' hq)
        · rw [if_neg hd] at hp'
          simp at hp'
    · exact Or.inr (consume_append_toks ts ts2 lastc cs p q hp hq)
  | Tok.optWs :: ts, ts2, lastc, cs, p, q, hp, hq => by
    simp only [consume, List.mem_append] at hp
    simp only [List.cons_append, consume, List.mem_append]
    rcases hp with hp | hp
    · cases cs with
      | nil => simp at hp
      | cons d cs' =>
        have hp' : p ∈ (if isSpaceChar d then consume ts (some d) cs' else []) := hp
        by_cases hd : isSpaceChar d
        · rw [if_pos hd] at hp'
          exact Or.inl (show q ∈
              (if isSpaceChar d then consume (ts ++ ts2) (some d) cs' else [])
            from by rw [if_pos hd]; exact consume_append_toks ts ts2 (some d) cs' p q hp' hq)
        · rw [if_neg hd] at hp'
          simp at hp'
    · exact Or.inr (consume_append_toks ts ts2 lastc cs p q hp hq)

theorem consume_lits_append (u : List Char) :
    ∀ (phr : List Char) (lastc : Option Char),
      (prevOf lastc phr, u) ∈ consume (phr.map Tok.lit) lastc (phr ++ u)
  | [], lastc => by simp [consume, prevOf]
  | c :: phr, lastc => by
    simp only [List.map_cons, List.cons_append, consume, if_pos rfl]
    have h := consume_lits_append u phr (some c)
    simpa [prevOf] using h

theorem consume_opt_skip (c : Char) (lastc : Option Char) (cs : List Char) :
    (lastc, cs) ∈ consume [Tok.opt c] lastc cs := by
  simp [consume]

theorem user_data : "user".data = ['u', 's', 'e', 'r'] := rfl

theorem user_toks_member (prevO : Option Char) (post : List Char) :
    (some 'r', post) ∈
      consume (lits "user" ++ [Tok.opt 's']) prevO ('u' :: 's' :: 'e' :: 'r' :: post) := by
  have h1 : (some 'r', post) ∈
      consume (lits "user") prevO (('u' :: 's' :: 'e' :: 'r' :: []) ++ post) := by
    have h := consume_lits_append post ('u' :: 's' :: 'e' :: 'r' :: []) prevO
    simpa [lits, user_data, prevOf] using h
  exact consume_append_toks (lits "user") [Tok.opt 's'] prevO _ _ _ h1
    (consume_opt_skip 's' (some 'r') post)

theorem user_lit_member (prevO : Option Char) (post : List Char) :
    (some 'r', post) ∈ consume (lits "user") prevO ('u' :: 's' :: 'e' :: 'r' :: post) := by
  have h := consume_lits_append post ('u' :: 's' :: 'e' :: 'r' :: []) prevO
  simpa [lits, user_data, prevOf] using h

theorem user_alt_matches (prevO : Option Char) (post : List Char)
    (h1 : wordAt prevO = false) (h2 : wordAt post.head? = false) :
    altMatchesAt (bAltS "user") prevO ('u' :: 's' :: 'e' :: 'r' :: post) = true := by
  unfold altMatchesAt bAltS
  rw [Bool.and_eq_true]
  constructor
  · have hb : boundaryOk prevO (some 'u') = true := by
      simp only [boundaryOk, wordAt_some, h1]
      decide
    simp [hb]
  · rw [List.any_eq_true]
    refine ⟨(some 'r', post), user_toks_member prevO post, ?_⟩
    have hb : boundaryOk (some 'r') post.head? = true := by
      simp only [boundaryOk, wordAt_some, h2]
      decide
    simp [hb]

theorem iam_user_alt_matches (prevO : Option Char) (post : List Char)
    (h1 : wordAt prevO = false) (h2 : wordAt post.head? = false) :
    altMatchesAt (bAlt "user") prevO ('u' :: 's' :: 'e' :: 'r' :: post) = true := by
  unfold altMatchesAt bAlt
  rw [Bool.and_eq_true]
  constructor
  · have hb : boundaryOk prevO (some 'u') = true := by
      simp only [boundaryOk, wordAt_some, h1]
      decide
    simp [hb]
  · rw [List.any_eq_true]
    refine ⟨(some 'r', post), user_lit_member prevO post, ?_⟩
    have hb : boundaryOk (some 'r') post.head? = true := by
      simp only [boundaryOk, wordAt_some, h2]
      decide
    simp [hb]

/-! ### Layout lemmas -/

theorem distinctLayers_step (xs : List Component) (c : Component) :
    distinctLayers (xs ++ [c]) =
      if c.layer ∈ distinctLayers xs then distinctLayers xs
      else distinctLayers xs ++ [c.layer] := by
  unfold distinctLayers
  rw [List.foldl_append]
  simp [List.foldl]

theorem mem_distinctLayers_aux (l : Nat) :
    ∀ (xs : List Component) (ls : List Nat),
      (l ∈ xs.foldl (fun ls c => if c.layer ∈ ls then ls else ls ++ [c.layer]) ls ↔
        l ∈ ls ∨ ∃ c ∈ xs, c.layer = l)
  | [], ls => by simp
  | x :: xs, ls => by
    simp only [List.foldl_cons]
    rw [mem_distinctLayers_aux l xs _]
    by_cases h : x.layer ∈ ls
    · rw [if_pos h]
      constructor
      · rintro (hl | hc)
        · exact Or.inl hl
        · obtain ⟨c, hc, hcl⟩ := hc
          exact Or.inr ⟨c, List.mem_cons_of_mem _ hc, hcl⟩
      · rintro (hl | ⟨c, hc, hcl⟩)
        · exact Or.inl hl
        · rcases List.mem_cons.mp hc with rfl | hc'
          · exact Or.inl (hcl ▸ h)
          · exact Or.inr ⟨c, hc', hcl⟩
    · rw [if_neg h]
      simp only [List.mem_append, List.mem_singleton]
      constructor
      · rintro ((hl | hxl) | hc)
        · exact Or.inl hl
        · exact Or.inr ⟨x, List.mem_cons_self _ _, hxl.symm⟩
        · obtain ⟨c, hc, hcl⟩ := hc
          exact Or.inr ⟨c, List.mem_cons_of_mem _ hc, hcl⟩
      · rintro (hl | ⟨c, hc, hcl⟩)
        · exact Or.inl (Or.inl hl)
        · rcases List.mem_cons.mp hc with rfl | hc'
          · exact Or.inl (Or.inr hcl.symm)
          · exact Or.inr ⟨c, hc', hcl⟩

theorem mem_distinctLayers (l : Nat) (xs : List Component) :
    l ∈ distinctLayers xs ↔ ∃ c ∈ xs, c.layer = l := by
  unfold distinctLayers
  rw [mem_distinctLayers_aux l xs []]
  simp

theorem groupLayers_spec (comps : List Component) :
    groupLayers comps =
      (distinctLayers comps).map (fun l => (l, comps.filter (fun c => c.layer == l))) := by
  induction comps using List.reverseRecOn with
  | nil => rfl
  | append_singleton xs c ih =>
    unfold groupLayers at ih ⊢
    rw [List.foldl_append, List.foldl_cons, List.foldl_nil, ih, distinctLayers_step]
    unfold insertLayer
    by_cases h : c.layer ∈ distinctLayers xs
    · rw [if_pos h]
      have hany : ((distinctLayers xs).map
          (fun l => (l, xs.filter (fun c' => c'.layer == l)))).any
            (fun p => p.1 == c.layer) = true := by
        rw [List.any_eq_true]
        exact ⟨(c.layer, xs.filter (fun c' => c'.layer == c.layer)),
          List.mem_map_of_mem _ h, by simp⟩
      rw [if_pos hany, List.map_map]
      apply List.map_congr_left
      intro l hl
      by_cases hlc : l = c.layer
      · subst hlc
        simp [List.filter_append]
      · have hne : (l == c.layer) = false := beq_eq_false_iff_ne.mpr hlc
        have hne' : (c.layer == l) = false := beq_eq_false_iff_ne.mpr (Ne.symm hlc)
        simp [List.filter_append, hne, hne', hlc]
    · rw [if_neg h]
      have hany : ¬ ((distinctLayers xs).map
          (fun l => (l, xs.filter (fun c' => c'.layer == l)))).any
            (fun p => p.1 == c.layer) = true := by
        rw [List.any_eq_true]
        rintro ⟨p, hp, hpc⟩
        obtain ⟨l, hl, rfl⟩ := List.mem_map.mp hp
        have hlc : l = c.layer := by simpa using hpc
        exact h (hlc ▸ hl)
      rw [if_neg hany, List.map_append]
      congr 1
      · apply List.map_congr_left
        intro l hl
        have hne : (c.layer == l) = false :=
          beq_eq_false_iff_ne.mpr (fun e => h (e ▸ hl))
        simp [List.filter_append, hne]
      · have hnone : xs.filter (fun c' => c'.layer == c.layer) = [] := by
          rw [List.filter_eq_nil_iff]
          intro a ha
          simp only [beq_iff_eq]
          exact fun e => h ((mem_distinctLayers _ _).mpr ⟨a, ha, e⟩)
        simp [List.filter_append, hnone]

theorem foldl_add_eq_sum (f : Component → Nat) :
    ∀ (l : List Component) (n : Nat),
      l.foldl (fun s c => s + f c) n = n + (l.map f).sum
  | [], n => by simp
  | c :: l, n => by
    simp only [List.foldl_cons, List.map_cons, List.sum_cons]
    rw [foldl_add_eq_sum f l (n + f c)]
    omega

theorem foldl_max_map (g : Nat → Nat) :
    ∀ (L : List Nat) (m : Nat),
      L.foldl (fun m l => max m (g l)) m = max m ((L.map g).foldr max 0)
  | [], m => by simp
  | a :: L, m => by
    simp only [List.foldl_cons, List.map_cons, List.foldr_cons]
    rw [foldl_max_map g L (max m (g a)), Nat.max_assoc]

theorem max_label_width_eq (comps : List Component) :
    max_label_width comps = ((distinctLayers comps).map (layerRowSum comps)).foldr max 0 := by
  unfold max_label_width
  rw [groupLayers_spec]
  simp only [List.foldl_map]
  have hfun : (fun (m : Nat) (l : Nat) =>
        max m ((comps.filter (fun c => c.layer == l)).foldl
          (fun s c => s + ((labelOf c).length + 4)) 0)) =
      fun (m l : Nat) => max m (layerRowSum comps l) := by
    funext m l
    rw [foldl_add_eq_sum (fun c => (labelOf c).length + 4) (comps.filter (fun c => c.layer == l)) 0]
    simp [layerRowSum]
  rw [hfun, foldl_max_map]
  simp

/-! ### Claim theorems -/

set_option maxRecDepth 100000

/-- C1, counterexample: on the generic fallback table (platform marsnet),
the unanchored compute pattern matches the word observers, which contains
the synonym server only strictly inside a longer word — the same
disjunction with word-boundary anchors does not match. -/
theorem C1_counterexample :
    (parse_components "observers" "marsnet").map Component.concept = ["compute"] ∧
      patSearch [nAlt "server", nAlt "compute", nAlt "instance"] (lowerChars "observers") =
        true ∧
      patSearch [bAlt "server", bAlt "compute", bAlt "instance"] (lowerChars "observers") =
        false := by
  refine ⟨by decide, by decide, by decide⟩

/-- C1, amended: every synonym alternative of the three platform detection
tables is word-boundary anchored on both sides, and an anchored alternative
never matches at a position strictly inside a word (a word character
immediately before the position and at the position); the generic fallback
table, however, is unanchored and can match inside longer words. -/
theorem C1_amended :
    (∀ e ∈ awsServices ++ gcpServices ++ azureServices, ∀ a ∈ e.2.pattern,
        a.bStart = true ∧ a.bEnd = true) ∧
      ∀ (a : Alt), a.bStart = true → ∀ (p c : Char) (cs : List Char),
        isWordChar p = true → isWordChar c = true →
        altMatchesAt a (some p) (c :: cs) = false := by
  constructor
  · decide
  · intro a hb p c cs hp hc
    unfold altMatchesAt
    rw [hb]
    simp [boundaryOk, wordAt_some, hp, hc]

/-- C1, witness for the amended theorem at concrete inputs: the aws vpc
alternative is anchored on both sides, and the anchored alternative for
server does not match right after the word character o (as inside
observers). -/
theorem C1_amended_witness :
    ((bAlt "vpc").bStart = true ∧ (bAlt "vpc").bEnd = true) ∧
      altMatchesAt (bAlt "server") (some 'o')
        ('s' :: 'e' :: 'r' :: 'v' :: 'e' :: 'r' :: 's' :: []) = false :=
  ⟨C1_amended.1 ("vpc", ⟨[bAlt "vpc", bAlt "network"], "VPC"⟩) (by decide)
      (bAlt "vpc") (by decide),
    C1_amended.2 (bAlt "server") (by decide) 'o' 's'
      ('e' :: 'r' :: 'v' :: 'e' :: 'r' :: 's' :: []) (by decide) (by decide)⟩

/-- C2: the entry point is total, and for every pair of input strings —
empty strings and unrecognized platforms included — the result is a string
wrapped in the standard fence markers. -/
theorem C2_total_fenced (plan_text target_platform : String) :
    ∃ body : String, generate_ascii_diagram plan_text target_platform =
      "```text\n" ++ body ++ "\n```" := by
  unfold generate_ascii_diagram
  by_cases h1 : plan_text = ""
  · rw [if_pos h1]
    exact ⟨"No architecture plan provided to generate diagram.", rfl⟩
  · rw [if_neg h1]
    by_cases h2 : target_platform = ""
    · rw [if_pos h2]
      exact ⟨"Target platform (aws, gcp, azure) must be specified.", rfl⟩
    · rw [if_neg h2]
      unfold create_architecture_diagram
      rw [if_neg h2]
      unfold build_diagram_text
      by_cases h4 : parse_components plan_text target_platform = []
      · rw [if_pos h4]
        refine ⟨"No specific components detected for " ++
          ("Architecture" ++ " on " ++ upperStr target_platform) ++ ".", ?_⟩
        have e1 : ("```text\n" : String) ++ "No specific components detected for " =
            "```text\nNo specific components detected for " := rfl
        simp [String.append_assoc]
        rw [← e1]
        exact String.append_assoc _ _ _
      · rw [if_neg h4]
        exact ⟨String.intercalate "\n"
          (diagramLines (parse_components plan_text target_platform)
            ("Architecture" ++ " on " ++ upperStr target_platform)), rfl⟩

/-- C3: an empty plan text yields exactly the fixed no-plan placeholder for
every platform, and a non-empty plan text with an empty platform yields
exactly the fixed platform-not-specified placeholder. -/
theorem C3_missing_inputs :
    (∀ platform : String, generate_ascii_diagram "" platform =
        "```text\nNo architecture plan provided to generate diagram.\n```") ∧
      ∀ plan_text : String, plan_text ≠ "" →
        generate_ascii_diagram plan_text "" =
          "```text\nTarget platform (aws, gcp, azure) must be specified.\n```" := by
  constructor
  · intro platform
    unfold generate_ascii_diagram
    rw [if_pos rfl]
  · intro plan h
    unfold generate_ascii_diagram
    rw [if_neg h, if_pos rfl]

/-- C3, witness at concrete inputs. -/
theorem C3_missing_inputs_witness :
    generate_ascii_diagram "" "aws" =
        "```text\nNo architecture plan provided to generate diagram.\n```" ∧
      generate_ascii_diagram "web app" "" =
        "```text\nTarget platform (aws, gcp, azure) must be specified.\n```" :=
  ⟨C3_missing_inputs.1 "aws", C3_missing_inputs.2 "web app" (by decide)⟩

/-- C4: for every plan text and platform, the extracted component list is
sorted by layer ascending with ties broken by display name ascending, and
no concept key appears twice. -/
theorem C4_sorted_unique (plan_text platform : String) :
    (parse_components plan_text platform).Pairwise
        (fun a b => a.layer < b.layer ∨ (a.layer = b.layer ∧ a.name ≤ b.name)) ∧
      ((parse_components plan_text platform).map Component.concept).Nodup :=
  ⟨parse_components_pairwise plan_text platform, parse_concepts_nodup plan_text platform⟩

/-- C5, counterexample: on aws with plan text mentioning vpc, waf, iam and
cloudwatch (four components sharing layer 7), the code computes interior
width 60 — the per-layer sum of label widths — while the formula of the
claim (single widest label) gives 40. -/
theorem C5_counterexample :
    box_width (parse_components "vpc waf iam cloudwatch" "aws") "Architecture on AWS" = 60 ∧
      claimedBoxWidth (parse_components "vpc waf iam cloudwatch" "aws")
        "Architecture on AWS" = 40 := by
  refine ⟨by decide, by decide⟩

/-- C5, amended: the interior width is the maximum of the title length plus
4, the maximum over the distinct layers of the sum over that layer of the
label widths plus 4 each, and the floor 40. -/
theorem C5_amended (comps : List Component) (title : String) (h : comps ≠ []) :
    box_width comps title =
      max (max (title.length + 4)
        (((distinctLayers comps).map (layerRowSum comps)).foldr max 0)) 40 := by
  unfold box_width
  rw [max_label_width_eq]

/-- C5, witness for the amended theorem at a concrete non-empty component
list. -/
theorem C5_amended_witness :
    box_width (parse_components "user" "aws") "T" =
      max (max ("T".length + 4)
        (((distinctLayers (parse_components "user" "aws")).map
          (layerRowSum (parse_components "user" "aws"))).foldr max 0)) 40 :=
  C5_amended (parse_components "user" "aws") "T" (by decide)

/-- C6, evaluation at the failing input: on aws with plan text mentioning
users and a database, the rendered rows have widths 126 (borders and
separator), 46 (title and component rows) and 44 (connector row) — no two
kinds agree, so content rows do not match the borders. -/
theorem C6_row_widths_eval :
    (diagramLines (parse_components "users and a database" "aws") "Architecture on AWS").map
      String.length = [126, 46, 126, 46, 44, 46, 126] := by
  decide

/-- C7: platform resolution is case-insensitive — any token lowering to
aws, gcp or azure selects the same table as the canonical spelling — and
any other token selects the generic fallback table, whose concept keys are
exactly user, load balancer, compute, relational storage and object
storage. -/
theorem C7_platform_resolution :
    (∀ s : String, lowerStr s = "aws" → platformPatterns s = platformPatterns "aws") ∧
      (∀ s : String, lowerStr s = "gcp" → platformPatterns s = platformPatterns "gcp") ∧
      (∀ s : String, lowerStr s = "azure" → platformPatterns s = platformPatterns "azure") ∧
      (∀ s : String, lowerStr s ≠ "aws" → lowerStr s ≠ "gcp" → lowerStr s ≠ "azure" →
        platformPatterns s = genericServices) ∧
      genericServices.map Prod.fst =
        ["user", "load_balancer", "compute", "database_sql", "storage_object"] := by
  refine ⟨?_, ?_, ?_, ?_, by decide⟩
  · intro s h
    have h1 : platformPatterns s = awsServices := by
      simp [platformPatterns, platform_services, List.lookup, h]
    have h2 : platformPatterns "aws" = awsServices := rfl
    rw [h1, h2]
  · intro s h
    have h1 : platformPatterns s = gcpServices := by
      simp [platformPatterns, platform_services, List.lookup, h]
    have h2 : platformPatterns "gcp" = gcpServices := rfl
    rw [h1, h2]
  · intro s h
    have h1 : platformPatterns s = azureServices := by
      simp [platformPatterns, platform_services, List.lookup, h]
    have h2 : platformPatterns "azure" = azureServices := rfl
    rw [h1, h2]
  · intro s h1 h2 h3
    have b1 : (lowerStr s == "aws") = false := beq_eq_false_iff_ne.mpr h1
    have b2 : (lowerStr s == "gcp") = false := beq_eq_false_iff_ne.mpr h2
    have b3 : (lowerStr s == "azure") = false := beq_eq_false_iff_ne.mpr h3
    simp [platformPatterns, platform_services, List.lookup, b1, b2, b3]

/-- C7, witness at concrete inputs: a case variant of aws resolves to the
aws table, and an unknown token resolves to the generic table. -/
theorem C7_platform_resolution_witness :
    platformPatterns "AWS" = platformPatterns "aws" ∧
      platformPatterns "MarsNet" = genericServices :=
  ⟨C7_platform_resolution.1 "AWS" (by decide),
    C7_platform_resolution.2.2.2.1 "MarsNet" (by decide) (by decide) (by decide)⟩

/-- C8, counterexample: on aws, plan text clients detects exactly the user
concept; the word user is a synonym of that already-detected concept, yet
appending a space and user changes the component list, because user also
matches the iam pattern. -/
theorem C8_counterexample :
    (parse_components "clients" "aws").map Component.concept = ["user"] ∧
      patSearch [bAltS "user", bAltS "client", bAltS "customer"] (lowerChars " user") =
        true ∧
      (parse_components ("clients" ++ " user") "aws").map Component.concept =
        ["user", "iam"] := by
  refine ⟨by decide, by decide, by decide⟩

/-- C8, amended: appending text whose lowered form starts with a non-word
character (such as a space before a duplicate synonym) never removes a
detected concept and never duplicates one; the component list is unchanged
exactly when no pattern of the platform table changes its match status —
but a duplicate synonym of one concept may newly match a different
concept's pattern and so change the list. -/
theorem C8_amended (t ext platform : String) (c : Char) (cs : List Char)
    (hext : lowerChars ext = c :: cs) (hc : isWordChar c = false) :
    (∀ k ∈ (parse_components t platform).map Component.concept,
        k ∈ (parse_components (t ++ ext) platform).map Component.concept) ∧
      ((parse_components (t ++ ext) platform).map Component.concept).Nodup ∧
      ((∀ e ∈ platformPatterns platform,
          patSearch e.2.pattern (lowerChars (t ++ ext)) =
            patSearch e.2.pattern (lowerChars t)) →
        parse_components (t ++ ext) platform = parse_components t platform) := by
  refine ⟨?_, parse_concepts_nodup _ _, ?_⟩
  · intro k hk
    rw [mem_parse_components] at hk ⊢
    obtain ⟨e, he, hek, hm⟩ := hk
    refine ⟨e, he, hek, ?_⟩
    rw [lowerChars_append, hext]
    exact patSearch_extend cs hc hm
  · intro hsame
    rw [parse_components_eq, parse_components_eq]
    exact congrArg (List.insertionSort compLeP ∘ List.map mkComponent)
      (List.filter_congr (fun e he => hsame e he))

/-- C8, witness for the amended theorem at the concrete inputs of the
counterexample: the user concept detected in clients is still detected
after appending a space and user. -/
theorem C8_amended_witness :
    "user" ∈ (parse_components ("clients" ++ " user") "aws").map Component.concept :=
  (C8_amended "clients" " user" "aws" ' ' ('u' :: 's' :: 'e' :: 'r' :: [])
      (by decide) (by decide)).1 "user" (by decide)

/-- C9: scenario A — the aws plan about a load balancer, an S3 bucket and
user uploads detects user, load balancer and object storage (plus iam,
whose pattern also contains user), listed in increasing layer order. -/
theorem C9_scenario_a :
    (parse_components "We need a load balancer and an S3 bucket for user uploads" "aws").map
        (fun c => (c.concept, c.layer)) =
      [("user", 0), ("load_balancer", 2), ("storage_object", 6), ("iam", 7)] ∧
      (0 : Nat) < 2 ∧ (2 : Nat) < 6 := by
  refine ⟨by decide, by decide, by decide⟩

/-- C10: on aws, every plan text whose lowered form contains the word user
with non-word (or absent) neighbours on both sides detects both the user
concept (display name Users) and the iam concept (display name IAM),
because the aws iam pattern also lists the synonym user. -/
theorem C10_user_implies_iam (t : String) (pre post : List Char)
    (hdec : lowerChars t = pre ++ 'u' :: 's' :: 'e' :: 'r' :: post)
    (hpre : wordAt (prevOf none pre) = false)
    (hpost : wordAt post.head? = false) :
    (∃ comp ∈ parse_components t "aws", comp.concept = "user" ∧ comp.name = "Users") ∧
      ∃ comp ∈ parse_components t "aws", comp.concept = "iam" ∧ comp.name = "IAM" := by
  have huser : patSearch [bAltS "user", bAltS "client", bAltS "customer"]
      (lowerChars t) = true := by
    rw [patSearch, List.any_eq_true]
    refine ⟨bAltS "user", by simp, ?_⟩
    rw [hdec]
    exact searchFrom_of_matchesAt _ pre none _ (user_alt_matches _ post hpre hpost)
  have hiam : patSearch [bAlt "iam", bAlt "identity", bAlt "role", bAlt "user"]
      (lowerChars t) = true := by
    rw [patSearch, List.any_eq_true]
    refine ⟨bAlt "user", by simp, ?_⟩
    rw [hdec]
    exact searchFrom_of_matchesAt _ pre none _ (iam_user_alt_matches _ post hpre hpost)
  constructor
  · refine ⟨mkComponent ("user",
      ⟨[bAltS "user", bAltS "client", bAltS "customer"], "Users"⟩), ?_, rfl, rfl⟩
    exact comp_mem_parse (by decide) huser
  · refine ⟨mkComponent ("iam",
      ⟨[bAlt "iam", bAlt "identity", bAlt "role", bAlt "user"], "IAM"⟩), ?_, rfl, rfl⟩
    exact comp_mem_parse (by decide) hiam

/-- C10, witness at a concrete plan text containing the standalone word
user. -/
theorem C10_user_implies_iam_witness :
    (∃ comp ∈ parse_components "user data" "aws",
        comp.concept = "user" ∧ comp.name = "Users") ∧
      ∃ comp ∈ parse_components "user data" "aws",
        comp.concept = "iam" ∧ comp.name = "IAM" :=
  C10_user_implies_iam "user data" [] (' ' :: 'd' :: 'a' :: 't' :: 'a' :: [])
    (by decide) (by decide) (by decide)

end AsciiDiagrammer
